import Mathlib

/-!
Verification development for the zundacord repository.

Source files embedded here:
- `src/zundacord/utils.ts` — `getReadableString`
- `src/zundacord/app.ts` — the `Zundacord` class: `onMessageCreate`,
  `queueMessage`, `slashJoin` (with its voice-disconnect handler) and
  `slashSkip`, together with the `guildPlayers` registry.

The `Player` class lives in `src/zundacord/player.ts`, which is not part of
the available sources; where a claim depends on it, the player engine is
modelled from the spec (its doc comments say so explicitly).

Machine strings are `String` (lists of `Char`); the regex engine's behaviour
on the three concrete patterns of `utils.ts` is embedded directly as
list-of-character matchers.
-/

/-! ## The character predicates used by the `utils.ts` regexes -/

/-- JavaScript's `\s` character class (ECMAScript WhiteSpace plus
LineTerminator), as used by the `[^\s]+` part of the URL regex and by
`String.prototype.trim`. -/
def isJsSpace (c : Char) : Bool :=
  let n := c.toNat
  n = 9 || n = 10 || n = 11 || n = 12 || n = 13 || n = 32 ||
  n = 0xA0 || n = 0x1680 || (0x2000 ≤ n && n ≤ 0x200A) ||
  n = 0x2028 || n = 0x2029 || n = 0x202F || n = 0x205F || n = 0x3000 || n = 0xFEFF

/-- The `\p{L}\p{N}\p{P}\p{Z}` test of the third regex in `utils.ts`
(`/[^\p{L}\p{N}\p{P}\p{Z}]/gu` removes every character outside the Unicode
letter, number, punctuation and separator categories).  The Unicode
general-category table is embedded here for the ASCII range (exact) and for
the code-point ranges exercised in this development (Latin/Greek/Cyrillic
letters, kana, CJK ideographs, Hangul, general punctuation, separators);
code points outside the encoded table are classified as removed. -/
def isLNPZ (c : Char) : Bool :=
  let n := c.toNat
  if n < 0x80 then
    -- ASCII: letters, digits, space (Zs) and the ASCII punctuation
    -- characters; NOT the ASCII symbol characters $ + < = > ^ ` | ~
    -- (category S) and not the control characters.
    (0x41 ≤ n && n ≤ 0x5A) || (0x61 ≤ n && n ≤ 0x7A) ||
    (0x30 ≤ n && n ≤ 0x39) ||
    n = 0x20 ||
    n = 0x21 || n = 0x22 || n = 0x23 || n = 0x25 || n = 0x26 || n = 0x27 ||
    n = 0x28 || n = 0x29 || n = 0x2A || n = 0x2C || n = 0x2D || n = 0x2E ||
    n = 0x2F || n = 0x3A || n = 0x3B || n = 0x3F || n = 0x40 ||
    n = 0x5B || n = 0x5C || n = 0x5D || n = 0x5F || n = 0x7B || n = 0x7D
  else
    (0x00C0 ≤ n && n ≤ 0x024F && n ≠ 0x00D7 && n ≠ 0x00F7) ||
    (0x0391 ≤ n && n ≤ 0x03A9 && n ≠ 0x03A2) || (0x03B1 ≤ n && n ≤ 0x03C9) ||
    (0x0410 ≤ n && n ≤ 0x044F) ||
    n = 0x00A0 || (0x2000 ≤ n && n ≤ 0x200A) ||
    n = 0x2028 || n = 0x2029 || n = 0x202F || n = 0x205F ||
    (0x2010 ≤ n && n ≤ 0x2027) ||
    (0x3000 ≤ n && n ≤ 0x3002) ||
    (0x3041 ≤ n && n ≤ 0x3096) || (0x30A1 ≤ n && n ≤ 0x30FA) || n = 0x30FC ||
    (0x4E00 ≤ n && n ≤ 0x9FFF) ||
    (0xAC00 ≤ n && n ≤ 0xD7A3)

/-! ## The URL regex `/https?:\/\/[^\s]+/` (no `g` flag: first match only) -/

/-- Attempt to match `https?:\/\/[^\s]+` at the head of the character list.
On success, returns the remainder of the list after the (greedy) match.
Backtracking cannot produce a match the greedy strategy misses for this
pattern, so the matcher is deterministic. -/
def matchUrlAt : List Char → Option (List Char)
  | 'h' :: 't' :: 't' :: 'p' :: rest =>
    let afterScheme : Option (List Char) :=
      match rest with
      | 's' :: ':' :: '/' :: '/' :: r => some r
      | ':' :: '/' :: '/' :: r => some r
      | _ => none
    match afterScheme with
    | some r =>
      match r with
      | [] => none
      | c :: _ =>
        if isJsSpace c then none
        else some (r.dropWhile (fun d => !isJsSpace d))
    | none => none
  | _ => none

/-- `str.replace(/https?:\/\/[^\s]+/, "")`: scan left to right for the first
position where the URL pattern matches, delete that one match, and keep
everything else — in particular everything after the first match is kept
verbatim (the substitution is not global). -/
def replaceFirstUrl : List Char → List Char
  | [] => []
  | c :: rest =>
    match matchUrlAt (c :: rest) with
    | some after => after
    | none => c :: replaceFirstUrl rest

/-! ## The Discord-emoji regex `/<a?:[^:]+:[0-9]+>/g` (global) -/

/-- Match the `[^:]+:[0-9]+>` tail of the Discord emoji escape, i.e. the part
after `<:` or `<a:`.  Returns the remainder after the closing `>`. -/
def matchEmojiBody (r : List Char) : Option (List Char) :=
  let name := r.takeWhile (fun c => c ≠ ':')
  if name.isEmpty then none
  else
    match r.drop name.length with
    | ':' :: r2 =>
      let digits := r2.takeWhile Char.isDigit
      if digits.isEmpty then none
      else
        match r2.drop digits.length with
        | '>' :: r3 => some r3
        | _ => none
    | _ => none

/-- Attempt to match `<a?:[^:]+:[0-9]+>` at the head of the list; on success
returns the remainder after the match. -/
def matchEmojiAt : List Char → Option (List Char)
  | '<' :: 'a' :: ':' :: r => matchEmojiBody r
  | '<' :: ':' :: r => matchEmojiBody r
  | _ => none

/-- Worker for the global emoji-escape removal.  The fuel argument only
bounds the recursion depth; every step consumes at least one character of
the remaining input, so fuel equal to the input length is always enough. -/
def removeEmojiAux : Nat → List Char → List Char
  | 0, l => l
  | _ + 1, [] => []
  | fuel + 1, c :: rest =>
    match matchEmojiAt (c :: rest) with
    | some after => removeEmojiAux fuel after
    | none => c :: removeEmojiAux fuel rest

/-- `str.replace(/<a?:[^:]+:[0-9]+>/g, "")`: delete every non-overlapping
occurrence of the Discord emoji escape, scanning left to right. -/
def removeEmoji (l : List Char) : List Char :=
  removeEmojiAux l.length l

/-- `String.prototype.trim()`: strip JavaScript whitespace from both ends. -/
def jsTrim (l : List Char) : List Char :=
  ((l.dropWhile isJsSpace).reverse.dropWhile isJsSpace).reverse

/-- `getReadableString` from `src/zundacord/utils.ts`: remove the first
http(s) URL, then every Discord emoji escape, then every character outside
the Unicode L/N/P/Z classes, then trim. -/
def getReadableString (s : String) : String :=
  String.mk (jsTrim (((removeEmoji (replaceFirstUrl s.data)).filter isLNPZ)))

/-! ## The player engine

Modelled from the spec: the `Player` class (`src/zundacord/player.ts`) is
not among the available sources, so the engine — its `queueMessage`,
`skipCurrentMessage`, playback progression and shutdown — is taken from the
spec's PlayerEngine state machine (§4.3): states Idle / Synthesizing /
Playing / Draining; `enqueue` starts the pipeline when Idle and otherwise
appends to the queue; stream completion advances to the next queued
utterance; `skipCurrent` abandons the active utterance and advances, and is
a no-op in Idle and Draining.  `played` records the utterances actually
delivered to the output, in delivery order.  `processed` is a ghost trace:
every utterance that has left the "current" slot, in the order it left,
tagged `true` when it was delivered to the output and `false` when it was
removed by skip.  `enqueuedG` is a ghost trace of every enqueued utterance
in arrival order. -/

/-- One queued unit of work: the fields handed to `player.queueMessage` by
`app.ts` (`{ styleId, message }`). -/
structure Utterance where
  styleId : Nat
  message : String
deriving DecidableEq, Repr

/-- Modelled from the spec: the PlayerEngine states of §4.3. -/
inductive Phase
  | idle
  | synthesizing
  | playing
  | draining
deriving DecidableEq, Repr

/-- Modelled from the spec: the state of one tenant's player engine
(see the section comment above for the role of each field). -/
structure Player where
  phase : Phase
  current : Option Utterance
  queue : List Utterance
  played : List Utterance
  processed : List (Utterance × Bool)
  enqueuedG : List Utterance
deriving DecidableEq, Repr

/-- A freshly created player (`new Player(...)`): idle, nothing queued. -/
def Player.init : Player :=
  { phase := Phase.idle, current := none, queue := [], played := [],
    processed := [], enqueuedG := [] }

/-- The pending work of the engine: the optional current slot followed by
the queue, in enqueue order. -/
def Player.backlog (p : Player) : List Utterance :=
  p.current.toList ++ p.queue

/-- Modelled from the spec: `enqueue(u)` — if Idle, move to Synthesizing and
make `u` current; otherwise append `u` at the tail of the queue with no
state change.  Never blocks, never rejects (unbounded queue). -/
def Player.queueMessage (p : Player) (u : Utterance) : Player :=
  match p.phase with
  | Phase.idle =>
    { p with phase := Phase.synthesizing, current := some u,
             enqueuedG := p.enqueuedG ++ [u] }
  | _ =>
    { p with queue := p.queue ++ [u], enqueuedG := p.enqueuedG ++ [u] }

/-- Modelled from the spec: pull the next utterance from the queue —
Synthesizing on the head if present, else Idle. -/
def Player.advance (p : Player) : Player :=
  match p.queue with
  | [] => { p with current := none, phase := Phase.idle, queue := [] }
  | u :: rest => { p with current := some u, phase := Phase.synthesizing, queue := rest }

/-- Modelled from the spec: `skipCurrent()` — abandon the active utterance
and advance; a no-op in Idle and Draining. -/
def Player.skipCurrentMessage (p : Player) : Player :=
  match p.phase with
  | Phase.idle => p
  | Phase.draining => p
  | _ =>
    match p.current with
    | none => p
    | some u => Player.advance { p with processed := p.processed ++ [(u, false)] }

/-- Modelled from the spec: synthesis success for the current utterance —
Synthesizing becomes Playing; no effect in any other phase. -/
def Player.synthDone (p : Player) : Player :=
  match p.phase with
  | Phase.synthesizing => { p with phase := Phase.playing }
  | _ => p

/-- Modelled from the spec: the output reports stream completion — the
current utterance has been fully delivered; record it and advance. -/
def Player.streamDone (p : Player) : Player :=
  match p.phase, p.current with
  | Phase.playing, some u =>
    Player.advance { p with played := p.played ++ [u],
                            processed := p.processed ++ [(u, true)] }
  | _, _ => p

/-- Modelled from the spec: shutdown — terminal Draining state; all queued
and current utterances are discarded. -/
def Player.shutdown (p : Player) : Player :=
  { p with phase := Phase.draining, current := none, queue := [] }

/-- The events observable at one engine: the two public calls plus the two
asynchronous completion signals that drive playback. -/
inductive PEvent
  | enqueue (u : Utterance)
  | skip
  | synthDone
  | streamDone
deriving DecidableEq, Repr

/-- One step of the engine state machine. -/
def Player.step (p : Player) : PEvent → Player
  | PEvent.enqueue u => p.queueMessage u
  | PEvent.skip => p.skipCurrentMessage
  | PEvent.synthDone => p.synthDone
  | PEvent.streamDone => p.streamDone

/-- Run the engine over a sequence of events. -/
def Player.run (p : Player) (evs : List PEvent) : Player :=
  evs.foldl Player.step p

/-- The utterances enqueued by an event sequence, in order. -/
def enqueuedOf (evs : List PEvent) : List Utterance :=
  evs.filterMap fun e =>
    match e with
    | PEvent.enqueue u => some u
    | _ => none

/-- `n` rounds of synthesis-completion followed by stream-completion: enough
progression signals to play `n` queued utterances to the end. -/
def pumps : Nat → List PEvent
  | 0 => []
  | n + 1 => PEvent.synthDone :: PEvent.streamDone :: pumps n

/-- The engine invariant: an Idle engine has no current utterance and an
empty queue; the ghost trace of utterances that left the current slot,
followed by the backlog, is exactly the enqueue trace; and the delivered
outputs are exactly the `true`-tagged entries of that trace, in order. -/
def PlayerWF (p : Player) : Prop :=
  (p.phase = Phase.idle → p.current = none ∧ p.queue = [])
  ∧ p.processed.map Prod.fst ++ p.backlog = p.enqueuedG
  ∧ p.played = (p.processed.filter fun x => x.2).map Prod.fst

/-! ## The application layer (`src/zundacord/app.ts`) -/

/-- The embed colors of `app.ts`. -/
def COLOR_SUCCESS : Nat := 0x47ff94

/-- The embed color used for failure replies. -/
def COLOR_FAILURE : Nat := 0xff4a47

/-- The ephemeral reply embed: color, title and description, as built by
`zundaEmbed().setColor(...).setTitle(...).setDescription(...)`. -/
structure Reply where
  color : Nat
  title : String
  description : String
deriving DecidableEq, Repr

/-- The fields of a Discord message that `onMessageCreate` and
`queueMessage` consult. -/
structure Msg where
  authorId : String
  inGuild : Bool
  guildId : String
  content : String

/-- The state of the `Zundacord` class that the embedded handlers touch:
the bot's application id, the per-guild per-user voice-style configuration
(`config.getMemberVoiceStyleId`), and the `guildPlayers` map. -/
structure AppState where
  applicationId : String
  config : String → String → Option Nat
  guildPlayers : String → Option Player

/-- Point update of a guild-id-keyed map (`Map.prototype.set`). -/
def mapInsert (f : String → Option Player) (k : String) (v : Player) :
    String → Option Player :=
  fun x => if x = k then some v else f x

/-- Point removal from a guild-id-keyed map (`Map.prototype.delete`). -/
def mapErase (f : String → Option Player) (k : String) :
    String → Option Player :=
  fun x => if x = k then none else f x

/-- `queueMessage(msg, styleId)` from `app.ts`: look the guild's player up;
if absent, log and return (the message is dropped); otherwise hand the
player `{ styleId, message: getReadableString(msg.content) }`. -/
def appQueueMessage (s : AppState) (m : Msg) (styleId : Nat) : AppState :=
  match s.guildPlayers m.guildId with
  | none => s
  | some player =>
    let u : Utterance := { styleId := styleId, message := getReadableString m.content }
    { s with guildPlayers := mapInsert s.guildPlayers m.guildId (player.queueMessage u) }

/-- `onMessageCreate(msg)` from `app.ts`: ignore the bot's own messages,
ignore non-guild messages, ignore authors with no stored voice style;
otherwise queue the message with the stored style id. -/
def onMessageCreate (s : AppState) (m : Msg) : AppState :=
  if m.authorId = s.applicationId then s
  else if !m.inGuild then s
  else
    match s.config m.guildId m.authorId with
    | none => s
    | some styleId => appQueueMessage s m styleId

/-- The inputs `slashJoin` consults: the guild, whether
`getVoiceConnection(guildId)` already returns a live connection, whether the
invoking member is in the guild's cache, and the member's voice channel. -/
structure JoinCtx where
  guildId : String
  hasVoiceConnection : Bool
  memberInGuild : Bool
  memberVoiceChannel : Option String

/-- `slashJoin` from `app.ts`: if the guild already has a voice connection,
reply "Already joined!" and change nothing; otherwise, on a valid member in
a voice channel, join and register a fresh player for the guild. -/
def slashJoin (s : AppState) (c : JoinCtx) : Reply × AppState :=
  if c.hasVoiceConnection then
    ({ color := COLOR_SUCCESS, title := "Already joined!",
       description := "The bot is already in voice" }, s)
  else if !c.memberInGuild then
    ({ color := COLOR_FAILURE, title := "Cannot join",
       description := "You are not in guild" }, s)
  else
    match c.memberVoiceChannel with
    | none =>
      ({ color := COLOR_FAILURE, title := "Cannot join",
         description := "You need to join to the voice first" }, s)
    | some ch =>
      ({ color := COLOR_SUCCESS, title := "Joined!",
         description := "Joined to " ++ ch },
       { s with guildPlayers := mapInsert s.guildPlayers c.guildId Player.init })

/-- The voice-connection `Disconnected` handler registered by `slashJoin`:
if the connection re-enters Signalling or Connecting within the 5 s window
(`reconnected = true`), only log — the registry and the player are left
untouched; on a true disconnect, destroy the connection and delete the
guild's entry from `guildPlayers`. -/
def handleVoiceDisconnect (s : AppState) (guildId : String) (reconnected : Bool) :
    AppState :=
  if reconnected then s
  else { s with guildPlayers := mapErase s.guildPlayers guildId }

/-- `slashSkip` from `app.ts`: outside a cached guild or without a player,
reply "Cannot skip" and change nothing; otherwise call the player's
`skipCurrentMessage` and reply "Skipped!". -/
def slashSkip (s : AppState) (inCachedGuild : Bool) (guildId : String) :
    Reply × AppState :=
  if !inCachedGuild then
    ({ color := COLOR_FAILURE, title := "Cannot skip",
       description := "The bot is not in the guild" }, s)
  else
    match s.guildPlayers guildId with
    | none =>
      ({ color := COLOR_FAILURE, title := "Cannot skip",
         description := "The bot is not in voice" }, s)
    | some p =>
      ({ color := COLOR_SUCCESS, title := "Skipped!",
         description := "Skipped the message" },
       { s with guildPlayers := mapInsert s.guildPlayers guildId p.skipCurrentMessage })

/-! ## Concrete states used by counterexamples and witnesses -/

/-- An application state with no player registered for any guild. -/
def emptyApp : AppState :=
  { applicationId := "bot", config := fun _ _ => none, guildPlayers := fun _ => none }

/-- An application state with a fresh player registered for guild `g1`. -/
def app1 : AppState :=
  { applicationId := "bot", config := fun _ _ => some 1,
    guildPlayers := mapInsert (fun _ => none) "g1" Player.init }

/-- A plain guild message from a non-bot author in guild `g1`. -/
def msgHello : Msg :=
  { authorId := "alice", inGuild := true, guildId := "g1", content := "hello" }

/-- A guild message whose content is a URL, a Discord emoji escape and
whitespace only. -/
def msgUrlEmoji : Msg :=
  { authorId := "alice", inGuild := true, guildId := "g1",
    content := "http://x.y <:a:1> " }

/-- A `/join` invocation for a guild that already has a live voice
connection. -/
def joinCtxAlready : JoinCtx :=
  { guildId := "g1", hasVoiceConnection := true, memberInGuild := true,
    memberVoiceChannel := none }

/-! ## Basic lemmas about the player engine -/

theorem enqueuedG_queueMessage (p : Player) (u : Utterance) :
    (p.queueMessage u).enqueuedG = p.enqueuedG ++ [u] := by
  unfold Player.queueMessage
  cases p.phase <;> rfl

theorem phase_queueMessage_ne_idle (p : Player) (u : Utterance)
    (h : p.phase ≠ Phase.idle) : (p.queueMessage u).phase = p.phase := by
  unfold Player.queueMessage
  cases hph : p.phase
  · exact absurd hph h
  · rfl
  · rfl
  · rfl

theorem enqueuedG_advance (p : Player) : (Player.advance p).enqueuedG = p.enqueuedG := by
  unfold Player.advance
  cases p.queue <;> rfl

theorem enqueuedG_skip (p : Player) :
    p.skipCurrentMessage.enqueuedG = p.enqueuedG := by
  unfold Player.skipCurrentMessage
  cases p.phase <;> try rfl
  all_goals cases p.current
  all_goals simp [enqueuedG_advance]

theorem enqueuedG_synthDone (p : Player) : p.synthDone.enqueuedG = p.enqueuedG := by
  unfold Player.synthDone
  cases p.phase <;> rfl

theorem enqueuedG_streamDone (p : Player) : p.streamDone.enqueuedG = p.enqueuedG := by
  unfold Player.streamDone
  cases p.phase <;> cases p.current <;> simp [enqueuedG_advance]

theorem enqueuedG_step (p : Player) (e : PEvent) :
    (Player.step p e).enqueuedG = p.enqueuedG ++ enqueuedOf [e] := by
  cases e <;>
    simp [Player.step, enqueuedOf, enqueuedG_queueMessage, enqueuedG_skip,
      enqueuedG_synthDone, enqueuedG_streamDone]

theorem run_enqueuedG (evs : List PEvent) : ∀ p : Player,
    (Player.run p evs).enqueuedG = p.enqueuedG ++ enqueuedOf evs := by
  induction evs with
  | nil => intro p; simp [Player.run, enqueuedOf]
  | cons e rest ih =>
    intro p
    have : Player.run p (e :: rest) = Player.run (Player.step p e) rest := rfl
    rw [this, ih, enqueuedG_step]
    cases e <;> simp [enqueuedOf]

theorem run_append (p : Player) (a b : List PEvent) :
    Player.run p (a ++ b) = Player.run (Player.run p a) b := by
  simp [Player.run, List.foldl_append]

theorem wf_init : PlayerWF Player.init := by
  refine ⟨fun _ => ⟨rfl, rfl⟩, rfl, rfl⟩

theorem wf_queueMessage (p : Player) (u : Utterance) (h : PlayerWF p) :
    PlayerWF (p.queueMessage u) := by
  obtain ⟨h1, h2, h3⟩ := h
  unfold Player.queueMessage
  cases hph : p.phase
  case idle =>
    obtain ⟨hc, hq⟩ := h1 hph
    simp only [Player.backlog, hc, hq, Option.toList_none, List.append_nil] at h2
    refine ⟨by simp, ?_, h3⟩
    simp [Player.backlog, hq, h2]
  all_goals
    refine ⟨by simp [hph], ?_, h3⟩
  all_goals
    simp only [Player.backlog] at h2 ⊢
    simp [← List.append_assoc, h2]

theorem wf_skip (p : Player) (h : PlayerWF p) : PlayerWF p.skipCurrentMessage := by
  obtain ⟨h1, h2, h3⟩ := h
  unfold Player.skipCurrentMessage
  cases hph : p.phase
  case idle => exact ⟨fun _ => h1 hph, h2, h3⟩
  case draining => exact ⟨fun hcontra => h1 hcontra, h2, h3⟩
  all_goals
    cases hc : p.current
    case none => exact ⟨fun hcontra => h1 hcontra, h2, h3⟩
    case some u =>
      simp only [Player.backlog, hc, Option.toList_some] at h2
      unfold Player.advance
      cases hq : p.queue
      case nil =>
        refine ⟨fun _ => ⟨rfl, rfl⟩, ?_, ?_⟩
        · simp only [Player.backlog]
          simp [hq] at h2
          simp [h2]
        · simp [List.filter_append, h3]
      case cons v rest =>
        refine ⟨by simp, ?_, ?_⟩
        · simp only [Player.backlog]
          simp [hq] at h2
          simp [← h2]
        · simp [List.filter_append, h3]

theorem wf_synthDone (p : Player) (h : PlayerWF p) : PlayerWF p.synthDone := by
  obtain ⟨h1, h2, h3⟩ := h
  unfold Player.synthDone
  cases hph : p.phase
  case synthesizing => exact ⟨by simp, h2, h3⟩
  all_goals exact ⟨fun hcontra => h1 hcontra, h2, h3⟩

theorem wf_streamDone (p : Player) (h : PlayerWF p) : PlayerWF p.streamDone := by
  obtain ⟨h1, h2, h3⟩ := h
  unfold Player.streamDone
  cases hph : p.phase
  case playing =>
    cases hc : p.current
    case none => exact ⟨fun hcontra => h1 hcontra, h2, h3⟩
    case some u =>
      simp only [Player.backlog, hc, Option.toList_some] at h2
      unfold Player.advance
      cases hq : p.queue
      case nil =>
        refine ⟨fun _ => ⟨rfl, rfl⟩, ?_, ?_⟩
        · simp only [Player.backlog]
          simp [hq] at h2
          simp [h2]
        · simp [List.filter_append, h3]
      case cons v rest =>
        refine ⟨by simp, ?_, ?_⟩
        · simp only [Player.backlog]
          simp [hq] at h2
          simp [← h2]
        · simp [List.filter_append, h3]
  all_goals
    cases hc : p.current
    all_goals exact ⟨fun hcontra => h1 hcontra, h2, h3⟩

theorem wf_step (p : Player) (e : PEvent) (h : PlayerWF p) : PlayerWF (Player.step p e) := by
  cases e
  case enqueue u => exact wf_queueMessage p u h
  case skip => exact wf_skip p h
  case synthDone => exact wf_synthDone p h
  case streamDone => exact wf_streamDone p h

theorem wf_run (evs : List PEvent) : ∀ p : Player, PlayerWF p → PlayerWF (Player.run p evs) := by
  induction evs with
  | nil => intro p h; exact h
  | cons e rest ih =>
    intro p h
    exact ih (Player.step p e) (wf_step p e h)

theorem run_enqueues (us : List Utterance) : ∀ p : Player, p.phase ≠ Phase.idle →
    Player.run p (us.map PEvent.enqueue) =
      { p with queue := p.queue ++ us, enqueuedG := p.enqueuedG ++ us } := by
  induction us with
  | nil => intro p _; simp [Player.run]
  | cons u rest ih =>
    intro p h
    have hstep : Player.step p (PEvent.enqueue u) =
        { p with queue := p.queue ++ [u], enqueuedG := p.enqueuedG ++ [u] } := by
      simp only [Player.step]
      unfold Player.queueMessage
      cases hph : p.phase
      · exact absurd hph h
      · rfl
      · rfl
      · rfl
    have hrun : Player.run p (PEvent.enqueue u :: rest.map PEvent.enqueue) =
        Player.run (Player.step p (PEvent.enqueue u)) (rest.map PEvent.enqueue) := rfl
    rw [List.map_cons, hrun, hstep, ih _ (by simpa using h)]
    simp

theorem run_pumps (q : List Utterance) : ∀ (u : Utterance) (pl : List Utterance)
    (pr : List (Utterance × Bool)) (en : List Utterance),
    (Player.run
      { phase := Phase.synthesizing, current := some u, queue := q,
        played := pl, processed := pr, enqueuedG := en }
      (pumps (q.length + 1))).played = pl ++ u :: q := by
  induction q with
  | nil => intro u pl pr en; rfl
  | cons v rest ih =>
    intro u pl pr en
    have h1 : pumps ((v :: rest).length + 1) =
        PEvent.synthDone :: PEvent.streamDone :: pumps (rest.length + 1) := rfl
    have h2 : Player.run
        { phase := Phase.synthesizing, current := some u, queue := v :: rest,
          played := pl, processed := pr, enqueuedG := en }
        (PEvent.synthDone :: PEvent.streamDone :: pumps (rest.length + 1)) =
        Player.run
          { phase := Phase.synthesizing, current := some v, queue := rest,
            played := pl ++ [u], processed := pr ++ [(u, true)], enqueuedG := en }
          (pumps (rest.length + 1)) := rfl
    rw [h1, h2, ih]
    simp

theorem run_draining (evs : List PEvent) : ∀ p : Player, p.phase = Phase.draining →
    (Player.run p evs).phase = Phase.draining ∧ (Player.run p evs).played = p.played := by
  induction evs with
  | nil => intro p h; exact ⟨h, rfl⟩
  | cons ev rest ih =>
    intro p h
    obtain ⟨ph, c, q, pl, pr, en⟩ := p
    simp only at h
    subst h
    cases ev
    case enqueue u => exact ih _ rfl
    case skip => exact ih _ rfl
    case synthDone => exact ih _ rfl
    case streamDone => exact ih _ rfl

/-! ## Claim theorems -/

/-- **C1**, counterexample.  `queueMessage` called for a guild with no
registered player (the bot is not in voice) silently discards the
utterance: the application state is completely unchanged and nothing is
appended to any queue, contradicting "never silently discards the
utterance" for the claim as stated over `queueMessage` calls. -/
theorem C1_counterexample_no_player_drops :
    appQueueMessage emptyApp msgHello 1 = emptyApp ∧
    (appQueueMessage emptyApp msgHello 1).guildPlayers "g1" = none :=
  ⟨rfl, rfl⟩

/-- **C1** (amended).  When `queueMessage` runs for a guild that does have a
registered player, the enqueue operation appends the utterance at the tail
of that tenant's backlog and succeeds: the guild's registry entry is
replaced by the same player with exactly the new utterance appended, and
the operation is a total function (it cannot block and cannot reject).
The hypothesis `hw` (an Idle engine has no pending work) holds for every
reachable player state, by `wf_run`. -/
theorem C1_enqueue_appends_at_tail (s : AppState) (m : Msg) (k : Nat) (p : Player)
    (hp : s.guildPlayers m.guildId = some p)
    (hw : p.phase = Phase.idle → p.current = none ∧ p.queue = []) :
    (appQueueMessage s m k).guildPlayers m.guildId =
      some (p.queueMessage { styleId := k, message := getReadableString m.content })
    ∧ (p.queueMessage { styleId := k, message := getReadableString m.content }).backlog =
      p.backlog ++ [{ styleId := k, message := getReadableString m.content }] := by
  constructor
  · unfold appQueueMessage
    rw [hp]
    simp [mapInsert]
  · unfold Player.queueMessage
    cases hph : p.phase
    case idle =>
      obtain ⟨hc, hq⟩ := hw hph
      simp [Player.backlog, hc, hq]
    all_goals simp [Player.backlog]

/-- Witness for C1: enqueueing "hello" into a fresh player registered for
guild `g1` appends it at the tail of the (empty) backlog. -/
theorem C1_enqueue_appends_at_tail_witness :
    (appQueueMessage app1 msgHello 1).guildPlayers msgHello.guildId =
      some (Player.queueMessage Player.init
        { styleId := 1, message := getReadableString msgHello.content })
    ∧ (Player.queueMessage Player.init
        { styleId := 1, message := getReadableString msgHello.content }).backlog =
      Player.init.backlog ++ [{ styleId := 1, message := getReadableString msgHello.content }] :=
  C1_enqueue_appends_at_tail app1 msgHello 1 Player.init rfl (fun _ => ⟨rfl, rfl⟩)

/-- **C2**.  The core treats utterance text as opaque: `queueMessage` hands
the player exactly the utterance `{ styleId, message := getReadableString
msg.content }` — the text its caller supplies after normalization, with no
further processing — and inside the engine every utterance delivered to
the output is one of the enqueued utterance values, character for
character (the delivered trace is a sublist of the enqueued trace). -/
theorem C2_text_opaque (s : AppState) (m : Msg) (k : Nat) (p : Player)
    (evs : List PEvent)
    (hp : s.guildPlayers m.guildId = some p) :
    (appQueueMessage s m k).guildPlayers m.guildId =
      some (p.queueMessage { styleId := k, message := getReadableString m.content })
    ∧ List.Sublist (Player.run Player.init evs).played (enqueuedOf evs) := by
  constructor
  · unfold appQueueMessage
    rw [hp]
    simp [mapInsert]
  · obtain ⟨h1, h2, h3⟩ := wf_run evs Player.init wf_init
    have he : (Player.run Player.init evs).enqueuedG = enqueuedOf evs := by
      rw [run_enqueuedG]; rfl
    rw [h3]
    have s1 : List.Sublist
        (((Player.run Player.init evs).processed.filter fun x => x.2).map Prod.fst)
        ((Player.run Player.init evs).processed.map Prod.fst) :=
      List.Sublist.map Prod.fst (List.filter_sublist _)
    have s2 : List.Sublist ((Player.run Player.init evs).processed.map Prod.fst)
        (enqueuedOf evs) := by
      rw [← he, ← h2]
      exact List.sublist_append_left _ _
    exact s1.trans s2

/-- Witness for C2 at a concrete state: the player for `g1` receives
exactly `getReadableString "hello"`. -/
theorem C2_text_opaque_witness :
    (appQueueMessage app1 msgHello 1).guildPlayers msgHello.guildId =
      some (Player.queueMessage Player.init
        { styleId := 1, message := getReadableString msgHello.content })
    ∧ List.Sublist (Player.run Player.init []).played (enqueuedOf []) :=
  C2_text_opaque app1 msgHello 1 Player.init [] rfl

/-- **C3**.  Ordering guarantee of the engine, over every sequence of
events (enqueue and skip calls interleaved with the pipeline's completion
signals), running from a fresh engine: (1) the utterances that left the
current slot, in the order they left, followed by the pending backlog, are
exactly the enqueued utterances in enqueue order — so processing is in
strict enqueue order; (2) the utterances delivered to the output are
exactly the processed ones not removed by `skipCurrent`, in that same
order, each delivered exactly once; (3) in particular, after N enqueues
with zero skips and N completed synthesis/stream rounds, the output has
received exactly the N utterances, in enqueue order. -/
theorem C3_strict_enqueue_order (evs : List PEvent) (us : List Utterance) :
    (Player.run Player.init evs).processed.map Prod.fst
        ++ (Player.run Player.init evs).backlog = enqueuedOf evs
    ∧ (Player.run Player.init evs).played
        = ((Player.run Player.init evs).processed.filter fun x => x.2).map Prod.fst
    ∧ (Player.run Player.init (us.map PEvent.enqueue ++ pumps us.length)).played = us := by
  obtain ⟨h1, h2, h3⟩ := wf_run evs Player.init wf_init
  have he : (Player.run Player.init evs).enqueuedG = enqueuedOf evs := by
    rw [run_enqueuedG]; rfl
  refine ⟨by rw [h2, he], h3, ?_⟩
  cases us with
  | nil => rfl
  | cons u rest =>
    rw [run_append]
    have hfirst : Player.run Player.init ((u :: rest).map PEvent.enqueue) =
        Player.run (Player.step Player.init (PEvent.enqueue u)) (rest.map PEvent.enqueue) := by
      rw [List.map_cons]
      rfl
    have hstep : Player.step Player.init (PEvent.enqueue u) =
        { phase := Phase.synthesizing, current := some u, queue := [], played := [],
          processed := [], enqueuedG := [u] } := rfl
    rw [hfirst, hstep, run_enqueues rest _ (by simp)]
    have hlen : (u :: rest).length = rest.length + 1 := rfl
    rw [hlen]
    simpa using run_pumps rest u [] [] ([u] ++ rest)

/-- **C4**.  On a true disconnect (no reconnect within the 5 s window) the
disconnect handler removes the tenant's entry from the `guildPlayers`
registry; a shut-down engine has discarded all queued and current
utterances, and however the event stream continues after shutdown, no
further utterance is ever delivered for that tenant (`played` never grows
past its value at shutdown). -/
theorem C4_true_disconnect_removes_and_shuts_down
    (s : AppState) (g : String) (p : Player) (evs : List PEvent) :
    (handleVoiceDisconnect s g false).guildPlayers g = none
    ∧ p.shutdown.queue = [] ∧ p.shutdown.current = none
    ∧ (Player.run p.shutdown evs).played = p.played := by
  refine ⟨?_, rfl, rfl, ?_⟩
  · simp [handleVoiceDisconnect, mapErase]
  · exact (run_draining evs p.shutdown rfl).2

/-- **C5**.  A `/join` for a guild that already has a live voice connection
replies "Already joined!" and neither creates a new Player nor changes the
registry: the whole application state, and in particular the guild's
`guildPlayers` entry, is unchanged — so each guild has at most one player.
-/
theorem C5_already_joined_no_new_player (s : AppState) (c : JoinCtx)
    (h : c.hasVoiceConnection = true) :
    (slashJoin s c).2 = s
    ∧ (slashJoin s c).2.guildPlayers c.guildId = s.guildPlayers c.guildId
    ∧ (slashJoin s c).1.title = "Already joined!" := by
  unfold slashJoin
  rw [h]
  exact ⟨rfl, rfl, rfl⟩

/-- Witness for C5 at a concrete already-connected guild. -/
theorem C5_already_joined_no_new_player_witness :
    (slashJoin app1 joinCtxAlready).2 = app1
    ∧ (slashJoin app1 joinCtxAlready).2.guildPlayers joinCtxAlready.guildId =
        app1.guildPlayers joinCtxAlready.guildId
    ∧ (slashJoin app1 joinCtxAlready).1.title = "Already joined!" :=
  C5_already_joined_no_new_player app1 joinCtxAlready rfl

/-- **C6**.  A transient disconnect (the connection re-enters Signalling or
Connecting within the reconnect window) is a pure no-op on the application
state: the registry — and with it the guild's engine and all its queued
state — is exactly preserved. -/
theorem C6_reconnect_preserves_engine (s : AppState) (g : String) :
    handleVoiceDisconnect s g true = s
    ∧ (handleVoiceDisconnect s g true).guildPlayers g = s.guildPlayers g :=
  ⟨rfl, rfl⟩

/-- **C7**.  `skipCurrent` with nothing active is a no-op that raises no
error: with no engine registered for the guild, `/skip` replies "Cannot
skip" and leaves the state untouched; on an Idle or Draining engine,
`skipCurrentMessage` is the identity; and `/skip` on a guild whose
registered engine is Idle or Draining leaves the application state exactly
unchanged.  (All the operations involved are total functions, so no
exception can be raised.) -/
theorem C7_skip_nothing_active (s : AppState) (g : String) (p : Player) :
    (s.guildPlayers g = none →
      (slashSkip s true g).2 = s ∧ (slashSkip s true g).1.title = "Cannot skip")
    ∧ ((p.phase = Phase.idle ∨ p.phase = Phase.draining) → p.skipCurrentMessage = p)
    ∧ (s.guildPlayers g = some p → (p.phase = Phase.idle ∨ p.phase = Phase.draining) →
        (slashSkip s true g).2 = s) := by
  have hskip : (p.phase = Phase.idle ∨ p.phase = Phase.draining) →
      p.skipCurrentMessage = p := by
    intro h
    unfold Player.skipCurrentMessage
    rcases h with h | h <;> rw [h]
  refine ⟨?_, hskip, ?_⟩
  · intro h
    constructor <;> simp [slashSkip, h]
  · intro hp hph
    have hmap : mapInsert s.guildPlayers g p.skipCurrentMessage = s.guildPlayers := by
      funext x
      by_cases hx : x = g
      · subst hx
        simp [mapInsert, hskip hph, hp]
      · simp [mapInsert, hx]
    simp [slashSkip, hp, hmap]

/-- Witness for C7: no engine for `g1` in `emptyApp`; a fresh (Idle) engine
under `skipCurrentMessage`; and `/skip` on `app1`, whose `g1` engine is
Idle. -/
theorem C7_skip_nothing_active_witness :
    ((slashSkip emptyApp true "g1").2 = emptyApp
      ∧ (slashSkip emptyApp true "g1").1.title = "Cannot skip")
    ∧ Player.init.skipCurrentMessage = Player.init
    ∧ (slashSkip app1 true "g1").2 = app1 :=
  ⟨(C7_skip_nothing_active emptyApp "g1" Player.init).1 rfl,
   (C7_skip_nothing_active emptyApp "g1" Player.init).2.1 (Or.inl rfl),
   (C7_skip_nothing_active app1 "g1" Player.init).2.2 rfl (Or.inl rfl)⟩

/-- **C8**.  The URL substitution of `getReadableString` is applied once,
not globally: as soon as the first URL match is found, everything after it
— including any later URL — is returned verbatim (first conjunct); on a
concrete input with two URLs separated by text, the second URL survives in
the output (second conjunct).  Discord emoji escapes and characters outside
the L/N/P/Z classes are removed at every occurrence (third and fourth
conjuncts, two occurrences each). -/
theorem C8_url_once_emoji_everywhere :
    (∀ (l after : List Char), matchUrlAt l = some after → replaceFirstUrl l = after)
    ∧ getReadableString "see http://a.com and http://b.org now" = "see  and http://b.org now"
    ∧ getReadableString "a <:x:1> b <:y:22> c" = "a  b  c"
    ∧ getReadableString "a😀b😀c" = "abc" := by
  refine ⟨?_, by decide, by decide, by decide⟩
  intro l after h
  cases l with
  | nil =>
    have hnone : matchUrlAt [] = none := rfl
    rw [hnone] at h
    exact Option.noConfusion h
  | cons c rest =>
    unfold replaceFirstUrl
    rw [h]

/-- Witness for C8's universal conjunct at a concrete URL. -/
theorem C8_url_once_emoji_everywhere_witness :
    replaceFirstUrl ('h' :: 't' :: 't' :: 'p' :: ':' :: '/' :: '/' :: 'x' :: []) = [] :=
  C8_url_once_emoji_everywhere.1 _ [] (by decide)

/-- **C9**.  `onMessageCreate` enqueues nothing unless all three guards
pass: if the author is the bot itself, or the message is not in a guild, or
the author has no stored voice style id, the handler returns with the
application state completely unchanged (and without error — it is a total
function); in particular a message from an author with no configured voice
style is silently ignored. -/
theorem C9_message_guards (s : AppState) (m : Msg)
    (h : m.authorId = s.applicationId ∨ m.inGuild = false ∨
         s.config m.guildId m.authorId = none) :
    onMessageCreate s m = s := by
  unfold onMessageCreate
  rcases h with h | h | h
  · rw [if_pos h]
  · by_cases h1 : m.authorId = s.applicationId
    · rw [if_pos h1]
    · rw [if_neg h1]
      simp [h]
  · by_cases h1 : m.authorId = s.applicationId
    · rw [if_pos h1]
    · rw [if_neg h1]
      cases hg : m.inGuild <;> simp [hg, h]

/-- Witness for C9: in `emptyApp` no author has a stored voice style, so
the message is silently ignored. -/
theorem C9_message_guards_witness : onMessageCreate emptyApp msgHello = emptyApp :=
  C9_message_guards emptyApp msgHello (Or.inr (Or.inr rfl))

/-- **C10**.  `queueMessage` enqueues the utterance even when normalization
yields the empty string: whenever `getReadableString` maps the content to
`""` and the guild has a player, an utterance whose text is the empty
string is still handed to the player. -/
theorem C10_empty_text_still_enqueued (s : AppState) (m : Msg) (k : Nat) (p : Player)
    (hp : s.guildPlayers m.guildId = some p)
    (he : getReadableString m.content = "") :
    (appQueueMessage s m k).guildPlayers m.guildId =
      some (p.queueMessage { styleId := k, message := "" }) := by
  unfold appQueueMessage
  rw [hp]
  simp [mapInsert, he]

/-- Witness for C10: a message whose content is a URL, an emoji escape and
whitespace only normalizes to `""`, and the empty utterance is still
enqueued. -/
theorem C10_empty_text_still_enqueued_witness :
    getReadableString msgUrlEmoji.content = ""
    ∧ (appQueueMessage app1 msgUrlEmoji 1).guildPlayers msgUrlEmoji.guildId =
        some (Player.queueMessage Player.init { styleId := 1, message := "" }) :=
  ⟨by decide, C10_empty_text_still_enqueued app1 msgUrlEmoji 1 Player.init rfl (by decide)⟩
